import Mathlib

/-!
Verification development for the Telegram Google Drive bot repository.

The development shallowly embeds the pieces of the code base that the
specification talks about:

* `src/telegram-gdrive-bot/src/utils/url-parser.js` — the Google Drive URL
  patterns, file-id validation, URL generation and confirmation-token
  extraction.  The JavaScript regular expressions are transcribed into a
  small regex AST (`RE`) whose backtracking matcher `mrun` mirrors the
  leftmost, greedy semantics of `String.prototype.match` for the feature
  subset those patterns use (literals, `(?: … )?` optional groups,
  alternation, `.*`, `\s+`, and a single mandatory capturing group of the
  form `([class]+)`).
* `src/telegram-gdrive-bot/src/utils/file-handler.js` — `getFileType` and
  `determineSendMethod`.
* the downloader (`attemptDownload`, `handleVirusScanPage`,
  `streamToFile`, `downloadGoogleDriveFile`) — modelled as a function over
  a scripted list of HTTP responses, returning the result together with a
  trace of requests and back-off sleeps.
* `retryOperation` from the error-handling middleware.

Strings are modelled as `List Char` (`Str`) throughout so that every
definition is executable and decidable on concrete inputs.
-/

abbrev Str := List Char

/-- The character class `[a-zA-Z0-9_-]` used by the Drive URL patterns,
`isValidFileId` and the `confirm=` token patterns. -/
def isIdChar (c : Char) : Bool :=
  c.isAlphanum || c == '_' || c == '-'

/-- JavaScript `.` (without the `s` flag): any character except the four
line terminators. -/
def jsDot (c : Char) : Bool :=
  !(c == '\n' || c == '\r' || c == '\u2028' || c == '\u2029')

/-- JavaScript `\s`: whitespace characters (the common ones). -/
def jsWs (c : Char) : Bool :=
  c == ' ' || c == '\t' || c == '\n' || c == '\r' || c == '\x0b' ||
  c == '\x0c' || c == '\u00A0' || c == '\u2028' || c == '\u2029' || c == '\uFEFF'

/-- `String.prototype.includes`, on `List Char`. -/
def containsSub (needle : Str) : Str → Bool
  | [] => needle.isPrefixOf []
  | c :: t => needle.isPrefixOf (c :: t) || containsSub needle t

/-!
 ## A small regex AST

Each JavaScript pattern used by the repository is transcribed
constructor-by-constructor.  `star`/`plus`/`grp` only ever repeat a
single-character class, exactly as in the source patterns, which keeps the
matcher structurally terminating.
-/

inductive RE where
  | eps : RE
  | chP : (Char → Bool) → RE
  | lit : Str → RE
  | cat : RE → RE → RE
  | alt : RE → RE → RE
  | opt : RE → RE
  | star : (Char → Bool) → RE
  | plus : (Char → Bool) → RE
  | grp : (Char → Bool) → RE

/-- Greedy backtracking for `p*`: try consuming `i` characters for
`i = n, n-1, …, 0`. -/
def backOpt (s : Str) (cap : Option Str) (k : Str → Option Str → Option Str) :
    Nat → Option Str
  | 0 => k s cap
  | i + 1 => k (s.drop (i + 1)) cap <|> backOpt s cap k i

/-- Greedy backtracking for `p+`: try consuming `i` characters for
`i = n, n-1, …, 1`. -/
def backPos (s : Str) (cap : Option Str) (k : Str → Option Str → Option Str) :
    Nat → Option Str
  | 0 => none
  | i + 1 => k (s.drop (i + 1)) cap <|> backPos s cap k i

/-- Greedy backtracking for a capturing `([class]+)` group. -/
def backGrp (s : Str) (k : Str → Option Str → Option Str) :
    Nat → Option Str
  | 0 => none
  | i + 1 => k (s.drop (i + 1)) (some (s.take (i + 1))) <|> backGrp s k i

/-- CPS matcher: `mrun r s cap k` matches `r` against a prefix of `s`,
threading the capture of the (single) group, and calls `k` on the rest.
Alternatives and repetition counts are tried in the order a backtracking
JavaScript engine tries them (left branch first, longest repetition
first). -/
def mrun : RE → Str → Option Str → (Str → Option Str → Option Str) → Option Str
  | .eps, s, cap, k => k s cap
  | .chP p, s, cap, k =>
    match s with
    | [] => none
    | c :: t => if p c then k t cap else none
  | .lit w, s, cap, k => if w.isPrefixOf s then k (s.drop w.length) cap else none
  | .cat a b, s, cap, k => mrun a s cap fun s2 c2 => mrun b s2 c2 k
  | .alt a b, s, cap, k => mrun a s cap k <|> mrun b s cap k
  | .opt a, s, cap, k => mrun a s cap k <|> k s cap
  | .star p, s, cap, k => backOpt s cap k (s.takeWhile p).length
  | .plus p, s, cap, k => backPos s cap k (s.takeWhile p).length
  | .grp p, s, _cap, k => backGrp s k (s.takeWhile p).length

/-- `url.match(re)` followed by the `match && match[1]` check the source
performs: the leftmost position at which the pattern matches with a
(non-empty) group capture; returns that capture. -/
def searchCap (r : RE) : Str → Option Str
  | [] => mrun r [] none fun _ cap => cap
  | c :: t =>
    match mrun r (c :: t) none fun _ cap => cap with
    | some v => some v
    | none => searchCap r t

/-- `re.test(url)`: does the pattern match anywhere? -/
def searchHit (r : RE) : Str → Bool
  | [] => (mrun r [] none fun _ _ => some []).isSome
  | c :: t => (mrun r (c :: t) none fun _ _ => some []).isSome || searchHit r t

/-!
 ## GOOGLE_DRIVE_PATTERNS  (url-parser.js lines 9–24)
-/

/-- `(?:https?:\/\/)?` -/
def protoRE : RE :=
  .opt (.cat (.lit "http".toList)
    (.cat (.opt (.chP (fun c => c == 's'))) (.lit "://".toList)))

/-- `(?:www\.)?` -/
def wwwRE : RE := .opt (.lit "www.".toList)

/-- `/(?:https?:\/\/)?(?:www\.)?drive\.google\.com\/file\/d\/([a-zA-Z0-9_-]+)(?:\/view)?/` -/
def pStandardView : RE :=
  .cat protoRE (.cat wwwRE (.cat (.lit "drive.google.com/file/d/".toList)
    (.cat (.grp isIdChar) (.opt (.lit "/view".toList)))))

/-- `/(?:https?:\/\/)?(?:www\.)?drive\.google\.com\/open\?id=([a-zA-Z0-9_-]+)/` -/
def pOpenFormat : RE :=
  .cat protoRE (.cat wwwRE (.cat (.lit "drive.google.com/open?id=".toList)
    (.grp isIdChar)))

/-- `/(?:https?:\/\/)?(?:www\.)?docs\.google\.com\/(?:document|spreadsheets|presentation)\/d\/([a-zA-Z0-9_-]+)/` -/
def pDocsFormat : RE :=
  .cat protoRE (.cat wwwRE (.cat (.lit "docs.google.com/".toList)
    (.cat (.alt (.lit "document".toList)
      (.alt (.lit "spreadsheets".toList) (.lit "presentation".toList)))
      (.cat (.lit "/d/".toList) (.grp isIdChar)))))

/-- `/(?:https?:\/\/)?(?:www\.)?drive\.google\.com\/uc\?.*[&?]id=([a-zA-Z0-9_-]+)/` -/
def pDirectDownload : RE :=
  .cat protoRE (.cat wwwRE (.cat (.lit "drive.google.com/uc?".toList)
    (.cat (.star jsDot) (.cat (.chP (fun c => c == '&' || c == '?'))
      (.cat (.lit "id=".toList) (.grp isIdChar))))))

/-- `/(?:https?:\/\/)?(?:www\.)?drive\.google\.com\/file\/d\/([a-zA-Z0-9_-]+)\/edit/` -/
def pEditFormat : RE :=
  .cat protoRE (.cat wwwRE (.cat (.lit "drive.google.com/file/d/".toList)
    (.cat (.grp isIdChar) (.lit "/edit".toList))))

/-- The five patterns, in the object-insertion order `Object.entries`
iterates them. -/
def drivePatterns : List RE :=
  [pStandardView, pOpenFormat, pDocsFormat, pDirectDownload, pEditFormat]

/-- Return the first pattern capture, mirroring the `for … of
Object.entries(GOOGLE_DRIVE_PATTERNS)` loop. -/
def firstSome : List RE → Str → Option Str
  | [], _ => none
  | r :: rs, s =>
    match searchCap r s with
    | some v => some v
    | none => firstSome rs s

/-- `parseGoogleDriveUrl` (url-parser.js lines 45–59). -/
def parseGoogleDriveUrl (url : Str) : Option Str :=
  firstSome drivePatterns url

/-- `isValidGoogleDriveUrl` (url-parser.js lines 31–38). -/
def isValidGoogleDriveUrl (url : Str) : Bool :=
  drivePatterns.any fun r => searchHit r url

/-- `getUrlFormat` (url-parser.js lines 145–157). -/
def getUrlFormat (url : Str) : Option String :=
  if searchHit pStandardView url then some "standardView"
  else if searchHit pOpenFormat url then some "openFormat"
  else if searchHit pDocsFormat url then some "docsFormat"
  else if searchHit pDirectDownload url then some "directDownload"
  else if searchHit pEditFormat url then some "editFormat"
  else none

/-!
 ## isValidFileId and URL generation  (url-parser.js lines 102–138)
-/

/-- Anchored semantics of `[class]{lo,hi}` applied to the whole string:
the counted repetition in `^[a-zA-Z0-9_-]{25,50}$`. -/
def matchCount (p : Char → Bool) : Nat → Nat → Str → Bool
  | lo, _, [] => lo == 0
  | lo, hi, c :: t =>
    match hi with
    | 0 => false
    | hi + 1 => p c && matchCount p (lo - 1) hi t

/-- `isValidFileId` (url-parser.js lines 102–111): `^[a-zA-Z0-9_-]{25,50}$`
(the empty string is also rejected by the `!fileId` guard, which the
repetition count covers). -/
def isValidFileId (fileId : Str) : Bool :=
  matchCount isIdChar 25 50 fileId

/-- `generateDownloadUrl` (url-parser.js lines 118–124); throwing is
modelled with `Except`. -/
def generateDownloadUrl (fileId : Str) : Except String Str :=
  if isValidFileId fileId then
    .ok ("https://drive.google.com/uc?export=download&id=".toList ++ fileId)
  else .error "Invalid file ID provided"

/-- `generateConfirmationUrl` (url-parser.js lines 132–138). -/
def generateConfirmationUrl (fileId confirmToken : Str) : Except String Str :=
  if isValidFileId fileId then
    .ok ("https://drive.google.com/uc?export=download&confirm=".toList ++
      confirmToken ++ "&id=".toList ++ fileId)
  else .error "Invalid file ID provided"

/-- `normalizeGoogleDriveUrl` (url-parser.js lines 164–171). -/
def normalizeGoogleDriveUrl (url : Str) : Option Str :=
  (parseGoogleDriveUrl url).map fun fileId =>
    "https://drive.google.com/file/d/".toList ++ fileId ++ "/view?usp=sharing".toList

/-- The object `analyzeGoogleDriveUrl` builds (url-parser.js lines 190–197). -/
structure DriveUrlInfo where
  originalUrl : Str
  fileId : Str
  format : Option String
  downloadUrl : Str
  sharingUrl : Option Str
  validFileId : Bool
  deriving Repr, DecidableEq

/-- `analyzeGoogleDriveUrl` (url-parser.js lines 178–198).  The object
literal evaluates `generateDownloadUrl(fileId)` (which can throw) before
the remaining fields, so the `Except` bind mirrors the evaluation order. -/
def analyzeGoogleDriveUrl (url : Str) : Except String (Option DriveUrlInfo) :=
  if !isValidGoogleDriveUrl url then .ok none
  else
    match parseGoogleDriveUrl url with
    | none => .ok none
    | some fileId =>
      (generateDownloadUrl fileId).map fun du =>
        some ⟨url, fileId, getUrlFormat url, du, normalizeGoogleDriveUrl url,
          isValidFileId fileId⟩

/-!
 ## extractConfirmationToken  (url-parser.js lines 205–226)
-/

/-- `/confirm=([a-zA-Z0-9_-]+)/` -/
def cpQuery : RE := .cat (.lit "confirm=".toList) (.grp isIdChar)

/-- `/name="confirm"\s+value="([^"]+)"/` -/
def cpHidden : RE :=
  .cat (.lit "name=\"confirm\"".toList)
    (.cat (.plus jsWs)
      (.cat (.lit "value=\"".toList)
        (.cat (.grp (fun c => !(c == '"'))) (.lit "\"".toList))))

/-- `/\&confirm=([a-zA-Z0-9_-]+)/` -/
def cpAmp : RE := .cat (.lit "&confirm=".toList) (.grp isIdChar)

/-- `/"confirm":"([^"]+)"/` -/
def cpJson : RE :=
  .cat (.lit "\"confirm\":\"".toList)
    (.cat (.grp (fun c => !(c == '"'))) (.lit "\"".toList))

/-- The pattern list, in source order. -/
def confirmPatterns : List RE := [cpQuery, cpHidden, cpAmp, cpJson]

/-- `extractConfirmationToken` (url-parser.js lines 205–226). -/
def extractConfirmationToken (htmlContent : Str) : Option Str :=
  firstSome confirmPatterns htmlContent

/-!
 ## file-handler.js — getFileType and determineSendMethod
-/

/-- The classification record `getFileType` returns. -/
structure FileTypeResult where
  ext : String
  mime : String
  method : String
  confidence : String
  deriving Repr, DecidableEq

/-- Tiers (c) and (d) of `getFileType`: buffer sniffing of the start of
the file, then the generic binary fallback (file-handler.js lines 58–87). -/
def bufferTierResult (buffer : Option (String × String)) : FileTypeResult :=
  match buffer with
  | some (e, m) => ⟨e, m, "buffer-analysis", "high"⟩
  | none => ⟨"bin", "application/octet-stream", "default", "low"⟩

/-- `getFileType` (file-handler.js lines 18–103) on the non-throwing path.
The two external detectors (`fileTypeFromFile` on the whole file,
`fileTypeFromBuffer` on the leading bytes) and the `mime.getType` lookup
table are oracles passed as arguments; `extension` is
`path.extname(filePath).toLowerCase()` (so it is either empty or starts
with a dot, and `.drop 1` models `substring(1)`). -/
def getFileType (magic : Option (String × String)) (extension : String)
    (mimeLookup : String → Option String)
    (buffer : Option (String × String)) : FileTypeResult :=
  match magic with
  | some (e, m) => ⟨e, m, "magic-numbers", "high"⟩
  | none =>
    match (if extension ≠ "" then mimeLookup extension else none) with
    | some m => ⟨extension.drop 1, m, "extension", "medium"⟩
    | none => bufferTierResult buffer

/-- `config.SUPPORTED_VIDEO_TYPES` (config/index.js lines 143–153). -/
def SUPPORTED_VIDEO_TYPES : List Str :=
  ["video/mp4".toList, "video/mpeg".toList, "video/quicktime".toList,
   "video/x-msvideo".toList, "video/x-ms-wmv".toList,
   "video/x-matroska".toList, "video/webm".toList]

/-- `config.SUPPORTED_IMAGE_TYPES` (config/index.js lines 155–164). -/
def SUPPORTED_IMAGE_TYPES : List Str :=
  ["image/jpeg".toList, "image/png".toList, "image/gif".toList,
   "image/webp".toList, "image/bmp".toList, "image/tiff".toList]

/-- `determineSendMethod` (file-handler.js lines 111–167), returning the
Telegram method name.  `mime` is `fileType?.mime` (absent or empty falls
back to `application/octet-stream` via `||`). -/
def determineSendMethod (mime : Option Str) (fileName : Str) : String :=
  let mimeType :=
    match mime with
    | some m => if m == [] then "application/octet-stream".toList else m
    | none => "application/octet-stream".toList
  if SUPPORTED_VIDEO_TYPES.contains mimeType then "sendVideo"
  else if SUPPORTED_IMAGE_TYPES.contains mimeType then "sendPhoto"
  else if "audio/".toList.isPrefixOf mimeType then "sendAudio"
  else if mimeType == "image/gif".toList ||
      ".gif".toList.isSuffixOf (fileName.map Char.toLower) then "sendAnimation"
  else "sendDocument"

/-!
 ## The downloader (googleDrive.js, src/unnamed/part_002)

The network is a scripted list of responses consumed in order, one per
HTTP request the code makes.  The model returns the final result, the
trace of requests and back-off sleeps, and the number of responses
consumed.
-/

/-- The configuration slice the downloader reads. -/
structure Cfg where
  maxFileSizeMB : Nat
  deriving Repr, DecidableEq

/-- `config.MAX_FILE_SIZE_BYTES = MAX_FILE_SIZE_MB * 1024 * 1024`. -/
def Cfg.maxFileSizeBytes (cfg : Cfg) : Nat := cfg.maxFileSizeMB * 1024 * 1024

/-- A scripted successful HTTP response (the fields of the axios response
the code reads). -/
structure RespOk where
  contentType : Option Str
  contentLength : Option Nat
  dispositionName : Option Str
  chunks : List Nat
  streamErr : Option String
  body : Str

/-- A scripted network interaction: a response, or a transport error
(timeout, connection refused, …) thrown by axios. -/
inductive Resp where
  | ok : RespOk → Resp
  | netErr : String → Resp

/-- `Math.round(contentLength / 1024 / 1024)` for non-negative values. -/
def jsRoundDivMB (n : Nat) : Nat := (n + 524288) / 1048576

/-- The message thrown by the declared-length pre-check
(part_002 line 100). -/
def sizePrecheckMsg (cfg : Cfg) (cl : Nat) : String :=
  "File size (" ++ toString (jsRoundDivMB cl) ++ "MB) exceeds the limit of " ++
    toString cfg.maxFileSizeMB ++ "MB"

/-- The message rejected with when the running byte counter passes the cap
(part_002 line 254). -/
def streamSizeMsg (cfg : Cfg) : String :=
  "File size exceeds the limit of " ++ toString cfg.maxFileSizeMB ++ "MB"

/-- `streamToFile` (part_002 lines 242–277): fold over the data chunks
accumulating `fileSize`; after each chunk the running total is checked
against the cap — on excess the write stream is destroyed and the partial
file unlinked.  A stream error after the chunks also unlinks the file.
Returns the result together with whether the file still exists. -/
def streamToFile (cfg : Cfg) : List Nat → Option String → Nat →
    Except String Nat × Bool
  | [], none, acc => (.ok acc, true)
  | [], some e, _ => (.error e, false)
  | c :: t, e?, acc =>
    if cfg.maxFileSizeBytes < acc + c then (.error (streamSizeMsg cfg), false)
    else streamToFile cfg t e? (acc + c)

/-- The success payload `attemptDownload` resolves with. -/
structure DlSuccess where
  fileName : Str
  fileSize : Nat
  contentType : Str
  deriving Repr, DecidableEq

/-- `file_${fileId}.bin`, the fallback when no filename is declared. -/
def defaultName (fileId : Str) : Str := "file_".toList ++ fileId ++ ".bin".toList

/-- `response.headers['content-type'] || 'application/octet-stream'`. -/
def respContentType (r : RespOk) : Str :=
  match r.contentType with
  | some ct => if ct == [] then "application/octet-stream".toList else ct
  | none => "application/octet-stream".toList

/-- `response.headers['content-type']?.includes('text/html')`. -/
def ctIsHtml (r : RespOk) : Bool :=
  (r.contentType.map (fun ct => containsSub "text/html".toList ct)).getD false

/-- `parseInt(response.headers['content-length'] || '0')`. -/
def declaredLength (r : RespOk) : Nat := r.contentLength.getD 0

/-- The body of one non-HTML download attempt (part_002 lines 97–124):
declared-length pre-check, then streaming to the unique file path.
The Bool records whether a (partial or complete) file exists afterwards;
the pre-check fires before any write stream is created. -/
def handleFileResponse (cfg : Cfg) (fileId : Str) (r : RespOk) :
    Except String DlSuccess × Bool :=
  if cfg.maxFileSizeBytes < declaredLength r then
    (.error (sizePrecheckMsg cfg (declaredLength r)), false)
  else
    match streamToFile cfg r.chunks r.streamErr 0 with
    | (.ok n, _) =>
      (.ok ⟨r.dispositionName.getD (defaultName fileId), n, respContentType r⟩, true)
    | (.error e, ex) => (.error e, ex)

/-- Observable events of a downloader run. -/
inductive Ev where
  | req : Str → Ev
  | sleep : Nat → Ev
  deriving Repr, DecidableEq

/-- `Math.min(1000 * Math.pow(2, attempt - 1), 5000)` (part_002 line 136). -/
def backoffDelay (attempt : Nat) : Nat := min (1000 * 2 ^ (attempt - 1)) 5000

/-- Outcome of a downloader run: result, event trace, responses consumed. -/
structure DlOut where
  res : Except String DlSuccess
  evs : List Ev
  used : Nat

/-- The retry loop of `attemptDownload` together with
`handleVirusScanPage` (part_002 lines 70–173), as one recursive function.
`attempt` is the loop counter; each iteration consumes the next scripted
response.  An HTML response triggers token extraction and a recursive
single-retry call against the confirmation URL (`maxRetries: 1`); its
failure is wrapped in `Failed to handle virus scan page: ` and handled by
the outer catch like any other attempt failure.  An exhausted script is
treated as a transport failure. -/
def dlGo (cfg : Cfg) (fileId url : Str) (maxRetries attempt : Nat)
    (lastErr : Option String) (resps : List Resp) : DlOut :=
  if maxRetries < attempt then
    ⟨.error (lastErr.getD "Download failed after all retry attempts"), [], 0⟩
  else
    match resps with
    | [] =>
      if attempt < maxRetries then
        let rest := dlGo cfg fileId url maxRetries (attempt + 1)
          (some "no scripted response") []
        ⟨rest.res, .req url :: .sleep (backoffDelay attempt) :: rest.evs, rest.used⟩
      else ⟨.error "no scripted response", [.req url], 0⟩
    | .netErr e :: t =>
      if attempt < maxRetries then
        let rest := dlGo cfg fileId url maxRetries (attempt + 1) (some e) t
        ⟨rest.res, .req url :: .sleep (backoffDelay attempt) :: rest.evs,
          rest.used + 1⟩
      else ⟨.error e, [.req url], 1⟩
    | .ok r :: t =>
      if ctIsHtml r then
        match extractConfirmationToken r.body with
        | none =>
          let e := "Failed to handle virus scan page: Could not extract confirmation token from virus scan page"
          if attempt < maxRetries then
            let rest := dlGo cfg fileId url maxRetries (attempt + 1) (some e) t
            ⟨rest.res, .req url :: .sleep (backoffDelay attempt) :: rest.evs,
              rest.used + 1⟩
          else ⟨.error e, [.req url], 1⟩
        | some tok =>
          match generateConfirmationUrl fileId tok with
          | .error ge =>
            let e := "Failed to handle virus scan page: " ++ ge
            if attempt < maxRetries then
              let rest := dlGo cfg fileId url maxRetries (attempt + 1) (some e) t
              ⟨rest.res, .req url :: .sleep (backoffDelay attempt) :: rest.evs,
                rest.used + 1⟩
            else ⟨.error e, [.req url], 1⟩
          | .ok cu =>
            let inner := dlGo cfg fileId cu 1 1 none t
            match inner.res with
            | .ok s => ⟨.ok s, .req url :: inner.evs, inner.used + 1⟩
            | .error ie =>
              let e := "Failed to handle virus scan page: " ++ ie
              if attempt < maxRetries then
                let rest := dlGo cfg fileId url maxRetries (attempt + 1) (some e)
                  (t.drop inner.used)
                ⟨rest.res,
                  .req url :: inner.evs ++ .sleep (backoffDelay attempt) :: rest.evs,
                  inner.used + 1 + rest.used⟩
              else ⟨.error e, .req url :: inner.evs, inner.used + 1⟩
      else
        match handleFileResponse cfg fileId r with
        | (.ok s, _) => ⟨.ok s, [.req url], 1⟩
        | (.error e, _) =>
          if attempt < maxRetries then
            let rest := dlGo cfg fileId url maxRetries (attempt + 1) (some e) t
            ⟨rest.res, .req url :: .sleep (backoffDelay attempt) :: rest.evs,
              rest.used + 1⟩
          else ⟨.error e, [.req url], 1⟩
termination_by (resps.length, maxRetries + 1 - attempt)
decreasing_by
  all_goals simp_wf
  all_goals first
    | exact Prod.Lex.right _ (by omega)
    | exact Prod.Lex.left _ _ (by omega)

/-- `attemptDownload(url, fileId, options)` (part_002 lines 70–143). -/
def attemptDownload (cfg : Cfg) (fileId url : Str) (maxRetries : Nat)
    (resps : List Resp) : DlOut :=
  dlGo cfg fileId url maxRetries 1 none resps

/-- `downloadGoogleDriveFile` (part_002 lines 20–61): validates the id by
generating the initial URL (which throws `Invalid file ID provided` before
any request is made), then runs the attempt loop. -/
def downloadGoogleDriveFile (cfg : Cfg) (fileId : Str) (maxRetries : Nat)
    (resps : List Resp) : DlOut :=
  match generateDownloadUrl fileId with
  | .error e => ⟨.error e, [], 0⟩
  | .ok u => attemptDownload cfg fileId u maxRetries resps

/-- Is this event a request against a confirmation URL? -/
def isConfirmReq : Ev → Bool
  | .req u => "https://drive.google.com/uc?export=download&confirm=".toList.isPrefixOf u
  | .sleep _ => false

/-- Is this event a back-off sleep? -/
def isSleepEv : Ev → Bool
  | .sleep _ => true
  | .req _ => false

/-!
 ## retryOperation (errorHandler.js, src/unnamed/part_001 lines 308–343)

The operation is scripted as a function from the attempt number to its
outcome.  The model returns the result (`Except (Option String) α`, the
`none` error standing for the `throw lastError` reached only when the
loop body never runs), the number of invocations, and the back-off delays
slept. -/
def retryGo (op : Nat → Except String α) (cond : String → Bool)
    (baseDelay maxDelay maxRetries attempt : Nat) (lastErr : Option String) :
    Except (Option String) α × Nat × List Nat :=
  if maxRetries < attempt then (.error lastErr, 0, [])
  else
    match op attempt with
    | .ok a => (.ok a, 1, [])
    | .error e =>
      if !cond e || attempt == maxRetries then (.error (some e), 1, [])
      else
        let d := min (baseDelay * 2 ^ (attempt - 1)) maxDelay
        let rest := retryGo op cond baseDelay maxDelay maxRetries (attempt + 1) (some e)
        (rest.1, rest.2.1 + 1, d :: rest.2.2)
termination_by maxRetries + 1 - attempt

/-- `retryOperation(operation, options)`; option defaults are
`maxRetries = 3`, `baseDelay = 1000`, `maxDelay = 10000`,
`retryCondition = () => true`. -/
def retryOperation (op : Nat → Except String α) (cond : String → Bool)
    (baseDelay maxDelay maxRetries : Nat) :
    Except (Option String) α × Nat × List Nat :=
  retryGo op cond baseDelay maxDelay maxRetries 1 none

/-!
 ## Supporting lemmas
-/

/-- `matchCount p lo hi s` holds exactly on strings of length between `lo`
and `hi` made of `p`-characters. -/
theorem matchCount_iff_true (p : Char → Bool) :
    ∀ (s : Str) (lo hi : Nat), matchCount p lo hi s = true ↔
      (lo ≤ s.length ∧ s.length ≤ hi ∧ s.all p) := by
  intro s
  induction s with
  | nil =>
    intro lo hi
    simp only [matchCount, List.length_nil, List.all_nil, beq_iff_eq, and_true]
    omega
  | cons c t ih =>
    intro lo hi
    cases hi with
    | zero => simp [matchCount]
    | succ hi =>
      simp only [matchCount, List.length_cons, List.all_cons, Bool.and_eq_true, ih]
      constructor
      · rintro ⟨hc, h1, h2, h3⟩
        exact ⟨by omega, by omega, hc, h3⟩
      · rintro ⟨h1, h2, hc, h3⟩
        exact ⟨hc, by omega, by omega, h3⟩

/-- Invocation accounting for `retryGo` when every attempt up to
`maxRetries` fails and the retry condition always holds. -/
theorem retryGo_all_fail {α : Type} (op : Nat → Except String α)
    (b d mr : Nat) (es : Nat → String)
    (hop : ∀ k, 1 ≤ k → k ≤ mr → op k = .error (es k)) :
    ∀ (n attempt : Nat) (le : Option String), attempt + n = mr → 1 ≤ attempt →
      (retryGo op (fun _ => true) b d mr attempt le).1 = .error (some (es mr)) ∧
      (retryGo op (fun _ => true) b d mr attempt le).2.1 = n + 1 := by
  intro n
  induction n with
  | zero =>
    intro attempt le h1 h2
    have ha : attempt = mr := by omega
    rw [retryGo, if_neg (by omega : ¬ mr < attempt), hop attempt h2 (by omega)]
    have heq : (attempt == mr) = true := by simp [beq_iff_eq]; omega
    simp [heq, ha]
  | succ n ih =>
    intro attempt le h1 h2
    rw [retryGo, if_neg (by omega : ¬ mr < attempt), hop attempt h2 (by omega)]
    have hne : (attempt == mr) = false := by
      simp only [beq_eq_false_iff_ne, ne_eq]; omega
    have := ih (attempt + 1) (some (es attempt)) (by omega) (by omega)
    simp [hne, this.1, this.2]

/-!
 ## The claims
-/

set_option maxRecDepth 8000 in
/-- Claim C3 (code bug).  The `directDownload` pattern is documented in the
source (`// https://drive.google.com/uc?id=FILE_ID&export=download`) and in
the spec as accepting `uc?id=<id>&export=download`, but the regex
`uc\?.*[&?]id=` demands a `&` or `?` between `uc?` and `id=`, so that very
URL yields no match: `parseGoogleDriveUrl` returns `null` and
`isValidGoogleDriveUrl` rejects the URL. -/
theorem direct_download_uc_id_first_yields_none :
    parseGoogleDriveUrl
      "https://drive.google.com/uc?id=ABCDEFGHIJKLMNOPQRSTUVWXYZ123&export=download".toList
      = none ∧
    isValidGoogleDriveUrl
      "https://drive.google.com/uc?id=ABCDEFGHIJKLMNOPQRSTUVWXYZ123&export=download".toList
      = false := by
  decide

/-- Claim C5 (counterexample).  `determineSendMethod` is not limited to the
four claimed categories: a file whose MIME type is not a supported
video/image/audio type but whose name ends in `.gif` (case-insensitively)
is routed to `sendAnimation`, a fifth value. -/
theorem send_method_animation_cex :
    determineSendMethod (some "application/octet-stream".toList) "evil.GIF".toList
      = "sendAnimation" ∧
    "sendAnimation" ∉ ["sendVideo", "sendPhoto", "sendAudio", "sendDocument"] := by
  decide

/-- Claim C5 (amended).  For every MIME type and filename the send-method
mapping returns exactly one of FIVE delivery categories: video, image,
audio, animation, or document. -/
theorem send_method_five_categories (mime : Option Str) (fileName : Str) :
    determineSendMethod mime fileName ∈
      ["sendVideo", "sendPhoto", "sendAudio", "sendAnimation", "sendDocument"] := by
  cases mime with
  | none => simp only [determineSendMethod]; split_ifs <;> simp
  | some m =>
    cases hm : m == [] <;> simp only [determineSendMethod, hm] <;>
      split_ifs <;> simp

/-- Claim C8 (confirmed).  `getFileType` tier priority: the magic-number
result wins when present; otherwise the extension lookup when the
(non-empty) extension maps to a MIME type; otherwise the buffer-sniffing
result; otherwise the generic `bin`/`application/octet-stream` fallback at
lowest confidence. -/
theorem classifier_tier_priority (magic : Option (String × String))
    (extension : String) (mimeLookup : String → Option String)
    (buffer : Option (String × String)) :
    (∀ e m, magic = some (e, m) →
      getFileType magic extension mimeLookup buffer = ⟨e, m, "magic-numbers", "high"⟩) ∧
    (∀ m, magic = none → extension ≠ "" → mimeLookup extension = some m →
      getFileType magic extension mimeLookup buffer
        = ⟨extension.drop 1, m, "extension", "medium"⟩) ∧
    (∀ e m, magic = none → (extension = "" ∨ mimeLookup extension = none) →
      buffer = some (e, m) →
      getFileType magic extension mimeLookup buffer = ⟨e, m, "buffer-analysis", "high"⟩) ∧
    (magic = none → (extension = "" ∨ mimeLookup extension = none) → buffer = none →
      getFileType magic extension mimeLookup buffer
        = ⟨"bin", "application/octet-stream", "default", "low"⟩) := by
  refine ⟨?_, ?_, ?_, ?_⟩
  · rintro e m rfl; rfl
  · rintro m rfl hne hm
    simp [getFileType, if_pos hne, hm]
  · rintro e m rfl h rfl
    rcases h with h | h <;> simp [getFileType, bufferTierResult, h]
  · rintro rfl h rfl
    rcases h with h | h <;> simp [getFileType, bufferTierResult, h]

/-- Witness for `classifier_tier_priority` at concrete inputs covering the
four tiers. -/
theorem classifier_tier_priority_witness :
    (getFileType (some ("png", "image/png")) ".png" (fun _ => none) none
      = ⟨"png", "image/png", "magic-numbers", "high"⟩) ∧
    (getFileType none ".pdf" (fun e => if e = ".pdf" then some "application/pdf" else none) none
      = ⟨"pdf", "application/pdf", "extension", "medium"⟩) ∧
    (getFileType none "" (fun _ => none) (some ("mp4", "video/mp4"))
      = ⟨"mp4", "video/mp4", "buffer-analysis", "high"⟩) ∧
    (getFileType none "" (fun _ => none) none
      = ⟨"bin", "application/octet-stream", "default", "low"⟩) := by
  refine ⟨?_, ?_, ?_, ?_⟩
  · exact (classifier_tier_priority _ _ _ _).1 "png" "image/png" rfl
  · exact (classifier_tier_priority _ _ _ _).2.1 "application/pdf" rfl (by decide) (by decide)
  · exact (classifier_tier_priority _ _ _ _).2.2.1 "mp4" "video/mp4" rfl (Or.inl rfl) rfl
  · exact (classifier_tier_priority _ _ _ _).2.2.2 rfl (Or.inl rfl) rfl

/-- Claim C9 (confirmed).  `isValidFileId` rejects strings shorter than 25
or longer than 50 characters, and accepts exactly the strings of length
25–50 over the alphabet `[a-zA-Z0-9_-]`. -/
theorem file_id_validation_bounds (s : Str) :
    (s.length < 25 ∨ 50 < s.length → isValidFileId s = false) ∧
    (isValidFileId s = true ↔ 25 ≤ s.length ∧ s.length ≤ 50 ∧ s.all isIdChar) := by
  constructor
  · intro h
    rcases hb : isValidFileId s with _ | _
    · rfl
    · have := (matchCount_iff_true isIdChar s 25 50).mp hb
      omega
  · exact matchCount_iff_true isIdChar s 25 50

/-- Witness for `file_id_validation_bounds`. -/
theorem file_id_validation_bounds_witness :
    isValidFileId "abc".toList = false ∧
    isValidFileId "ABCDEFGHIJKLMNOPQRSTUVWXY".toList = true := by
  constructor
  · exact (file_id_validation_bounds "abc".toList).1 (Or.inl (by decide))
  · exact (file_id_validation_bounds "ABCDEFGHIJKLMNOPQRSTUVWXY".toList).2.mpr (by decide)

/-- Claim C10 (confirmed).  The URL patterns capture identifiers of any
positive length, so `isValidGoogleDriveUrl` can accept a URL whose
extracted identifier fails `isValidFileId` (witness: a 3-character id);
for every such URL `generateDownloadUrl` throws
`Invalid file ID provided`, and `analyzeGoogleDriveUrl` propagates that
exception instead of returning `null`. -/
theorem parser_validator_gap :
    (isValidGoogleDriveUrl "https://drive.google.com/file/d/abc/view".toList = true ∧
     parseGoogleDriveUrl "https://drive.google.com/file/d/abc/view".toList
       = some "abc".toList ∧
     isValidFileId "abc".toList = false) ∧
    (∀ url fileId, parseGoogleDriveUrl url = some fileId →
      isValidFileId fileId = false →
      generateDownloadUrl fileId = .error "Invalid file ID provided" ∧
      (isValidGoogleDriveUrl url = true →
        analyzeGoogleDriveUrl url = .error "Invalid file ID provided")) := by
  constructor
  · exact ⟨by decide, by decide, by decide⟩
  · intro url fileId hparse hvalid
    have hgen : generateDownloadUrl fileId = .error "Invalid file ID provided" := by
      simp [generateDownloadUrl, hvalid]
    refine ⟨hgen, ?_⟩
    intro hurl
    simp [analyzeGoogleDriveUrl, hurl, hparse, hgen, Except.map]

/-- Witness for `parser_validator_gap` at the concrete gap URL. -/
theorem parser_validator_gap_witness :
    analyzeGoogleDriveUrl "https://drive.google.com/file/d/abc/view".toList
      = .error "Invalid file ID provided" :=
  ((parser_validator_gap.2 "https://drive.google.com/file/d/abc/view".toList
    "abc".toList (by decide) (by decide)).2 (by decide))

/-- Claim C6 (confirmed).  `retryOperation` (with its default
always-retry condition): an operation failing on the first two invocations
and succeeding on the third is invoked exactly three times and its success
is returned (for any `maxRetries ≥ 3`); an operation failing on every
invocation is invoked exactly `maxRetries` times and the last error is
propagated. -/
theorem retry_wrapper_invocation_count :
    (∀ {α : Type} (op : Nat → Except String α) (b d mr : Nat) (e1 e2 : String) (a : α),
      3 ≤ mr → op 1 = .error e1 → op 2 = .error e2 → op 3 = .ok a →
      (retryOperation op (fun _ => true) b d mr).1 = .ok a ∧
      (retryOperation op (fun _ => true) b d mr).2.1 = 3) ∧
    (∀ {α : Type} (op : Nat → Except String α) (b d mr : Nat) (es : Nat → String),
      1 ≤ mr → (∀ k, 1 ≤ k → k ≤ mr → op k = .error (es k)) →
      (retryOperation op (fun _ => true) b d mr).1 = .error (some (es mr)) ∧
      (retryOperation op (fun _ => true) b d mr).2.1 = mr) := by
  constructor
  · intro α op b d mr e1 e2 a hmr h1 h2 h3
    have hne1 : ((1 : Nat) == mr) = false := by
      simp only [beq_eq_false_iff_ne, ne_eq]; omega
    have hne2 : ((2 : Nat) == mr) = false := by
      simp only [beq_eq_false_iff_ne, ne_eq]; omega
    have s3 : retryGo op (fun _ => true) b d mr 3 (some e2) = (.ok a, 1, []) := by
      rw [retryGo, if_neg (by omega : ¬ mr < 3), h3]
    unfold retryOperation
    rw [retryGo, if_neg (by omega : ¬ mr < 1), h1]
    simp only [Bool.not_true, hne1, Bool.or_self, Bool.false_eq_true, if_false]
    rw [retryGo, if_neg (by omega : ¬ mr < 2), h2]
    simp only [Bool.not_true, hne2, Bool.or_self, Bool.false_eq_true, if_false]
    simp [s3]
  · intro α op b d mr es hmr hop
    have := retryGo_all_fail op b d mr es hop (mr - 1) 1 none (by omega) (by omega)
    unfold retryOperation
    refine ⟨this.1, ?_⟩
    rw [this.2]
    omega

/-- Witness for `retry_wrapper_invocation_count`. -/
theorem retry_wrapper_invocation_count_witness :
    ((retryOperation
        (fun k => if k == 1 then .error "a" else if k == 2 then .error "b" else .ok (5 : Nat))
        (fun _ => true) 1000 10000 3).1 = .ok 5 ∧
      (retryOperation
        (fun k => if k == 1 then .error "a" else if k == 2 then .error "b" else .ok (5 : Nat))
        (fun _ => true) 1000 10000 3).2.1 = 3) ∧
    ((retryOperation (fun _ => (.error "x" : Except String Nat))
        (fun _ => true) 1000 10000 3).1 = .error (some "x") ∧
      (retryOperation (fun _ => (.error "x" : Except String Nat))
        (fun _ => true) 1000 10000 3).2.1 = 3) := by
  constructor
  · exact retry_wrapper_invocation_count.1
      (fun k => if k == 1 then .error "a" else if k == 2 then .error "b" else .ok (5 : Nat))
      1000 10000 3 "a" "b" 5 (by omega) rfl rfl rfl
  · exact retry_wrapper_invocation_count.2
      (fun _ => (.error "x" : Except String Nat)) 1000 10000 3 (fun _ => "x")
      (by omega) (fun k hk1 hk2 => rfl)

/-- If the running total would stay within the cap at entry and some
prefix of the chunk list pushes it past the cap, `streamToFile` rejects
with the stream size message and the partial file is gone. -/
theorem streamToFile_exceeds (cfg : Cfg) :
    ∀ (chunks : List Nat) (err : Option String) (acc : Nat),
      acc ≤ cfg.maxFileSizeBytes →
      (∃ pfx rest, pfx ++ rest = chunks ∧ cfg.maxFileSizeBytes < acc + pfx.sum) →
      streamToFile cfg chunks err acc = (.error (streamSizeMsg cfg), false) := by
  intro chunks
  induction chunks with
  | nil =>
    intro err acc hacc h
    obtain ⟨pfx, rest, heq, hsum⟩ := h
    have : pfx = [] := by
      cases pfx with
      | nil => rfl
      | cons a b => simp at heq
    subst this
    simp at hsum
    omega
  | cons c t ih =>
    intro err acc hacc h
    by_cases hc : cfg.maxFileSizeBytes < acc + c
    · simp [streamToFile, if_pos hc]
    · rw [streamToFile, if_neg hc]
      apply ih err (acc + c) (by omega)
      obtain ⟨pfx, rest, hr, hsum⟩ := h
      cases pfx with
      | nil =>
        simp at hsum
        omega
      | cons p ps =>
        simp only [List.cons_append, List.cons.injEq] at hr
        obtain ⟨hpc, hps⟩ := hr
        subst hpc
        exact ⟨ps, rest, hps, by simp at hsum ⊢; omega⟩

/-- A successful `streamToFile` never reports a size above the cap. -/
theorem streamToFile_ok_le (cfg : Cfg) :
    ∀ (chunks : List Nat) (err : Option String) (acc n : Nat) (b : Bool),
      acc ≤ cfg.maxFileSizeBytes →
      streamToFile cfg chunks err acc = (.ok n, b) →
      n ≤ cfg.maxFileSizeBytes := by
  intro chunks
  induction chunks with
  | nil =>
    intro err acc n b hacc h
    cases err with
    | none => simp [streamToFile] at h; omega
    | some e => simp [streamToFile] at h
  | cons c t ih =>
    intro err acc n b hacc h
    rw [streamToFile] at h
    by_cases hc : cfg.maxFileSizeBytes < acc + c
    · rw [if_pos hc] at h; simp at h
    · rw [if_neg hc] at h
      exact ih err (acc + c) n b (by omega) h

/-- A successful `handleFileResponse` never reports a size above the cap. -/
theorem handleFileResponse_ok_le (cfg : Cfg) (fileId : Str) (r : RespOk)
    (s : DlSuccess) (b : Bool)
    (h : handleFileResponse cfg fileId r = (.ok s, b)) :
    s.fileSize ≤ cfg.maxFileSizeBytes := by
  rw [handleFileResponse] at h
  by_cases hcl : cfg.maxFileSizeBytes < declaredLength r
  · rw [if_pos hcl] at h; simp at h
  · rw [if_neg hcl] at h
    rcases hst : streamToFile cfg r.chunks r.streamErr 0 with ⟨res, ex⟩
    rw [hst] at h
    cases res with
    | ok n =>
      simp only [Prod.mk.injEq, Except.ok.injEq] at h
      have := streamToFile_ok_le cfg r.chunks r.streamErr 0 n ex (by omega) hst
      rw [← h.1]
      simpa using this
    | error e => simp at h

/-- Every success produced anywhere in the attempt loop (including through
the nested confirmation call) respects the cap. -/
theorem dlGo_ok_size (cfg : Cfg) (fileId : Str) :
    ∀ (url : Str) (mr attempt : Nat) (le : Option String) (resps : List Resp)
      (s : DlSuccess),
      (dlGo cfg fileId url mr attempt le resps).res = .ok s →
      s.fileSize ≤ cfg.maxFileSizeBytes := by
  intro url mr attempt le resps
  induction url, mr, attempt, le, resps using dlGo.induct cfg fileId with
  | case1 url mr attempt le resps h =>
    intro s hres
    rw [dlGo.eq_def] at hres
    simp [if_pos h] at hres
  | case2 url mr attempt le h1 h2 ih =>
    intro s hres
    rw [dlGo.eq_def] at hres
    simp [if_neg h1, if_pos h2] at hres
    exact ih s hres
  | case3 url mr attempt le h1 h2 =>
    intro s hres
    rw [dlGo.eq_def] at hres
    simp [if_neg h1, if_neg h2] at hres
  | case4 url mr attempt le h1 e t h2 ih =>
    intro s hres
    rw [dlGo.eq_def] at hres
    simp [if_neg h1, if_pos h2] at hres
    exact ih s hres
  | case5 url mr attempt le h1 e t h2 =>
    intro s hres
    rw [dlGo.eq_def] at hres
    simp [if_neg h1, if_neg h2] at hres
  | case6 url mr attempt le h1 r t hh hx e h2 ih =>
    intro s hres
    rw [dlGo.eq_def] at hres
    simp [if_neg h1, hh, hx, if_pos h2] at hres
    exact ih s hres
  | case7 url mr attempt le h1 r t hh hx h2 =>
    intro s hres
    rw [dlGo.eq_def] at hres
    simp [if_neg h1, hh, hx, if_neg h2] at hres
  | case8 url mr attempt le h1 r t hh tok hx ge hg e h2 ih =>
    intro s hres
    rw [dlGo.eq_def] at hres
    simp [if_neg h1, hh, hx] at hres
    rw [hg] at hres
    simp [if_pos h2] at hres
    exact ih s hres
  | case9 url mr attempt le h1 r t hh tok hx ge hg h2 =>
    intro s hres
    rw [dlGo.eq_def] at hres
    simp [if_neg h1, hh, hx] at hres
    rw [hg] at hres
    simp [if_neg h2] at hres
  | case10 url mr attempt le h1 r t hh tok hx cu hg inner s0 hinner ih =>
    intro s hres
    have hin : (dlGo cfg fileId cu 1 1 none t).res = .ok s0 := hinner
    rw [dlGo.eq_def] at hres
    simp [if_neg h1, hh, hx] at hres
    rw [hg] at hres
    simp [hin] at hres
    subst hres
    exact ih s0 hin
  | case11 url mr attempt le h1 r t hh tok hx cu hg inner ie hinner e h2 ih1 ih2 =>
    intro s hres
    have hin : (dlGo cfg fileId cu 1 1 none t).res = .error ie := hinner
    rw [dlGo.eq_def] at hres
    simp [if_neg h1, hh, hx] at hres
    rw [hg] at hres
    simp [hin, if_pos h2] at hres
    exact ih2 s hres
  | case12 url mr attempt le h1 r t hh tok hx cu hg inner ie hinner h2 ih1 =>
    intro s hres
    have hin : (dlGo cfg fileId cu 1 1 none t).res = .error ie := hinner
    rw [dlGo.eq_def] at hres
    simp [if_neg h1, hh, hx] at hres
    rw [hg] at hres
    simp [hin, if_neg h2] at hres
  | case13 url mr attempt le h1 r t hh s0 b hf =>
    intro s hres
    rw [dlGo.eq_def] at hres
    simp [if_neg h1, if_neg hh, hf] at hres
    subst hres
    exact handleFileResponse_ok_le cfg fileId r s0 b hf
  | case14 url mr attempt le h1 r t hh e b hf h2 ih =>
    intro s hres
    rw [dlGo.eq_def] at hres
    simp [if_neg h1, if_neg hh, hf, if_pos h2] at hres
    exact ih s hres
  | case15 url mr attempt le h1 r t hh e b hf h2 =>
    intro s hres
    rw [dlGo.eq_def] at hres
    simp [if_neg h1, if_neg hh, hf, if_neg h2] at hres

/-- Claim C1 (confirmed).  Size-cap enforcement: a declared `Content-Length`
above the cap fails the attempt with the file-size error before any bytes
are written (no file exists); a chunk prefix pushing the running counter
past the cap aborts the stream with the file-size error and the partial
file no longer exists; and no successful download result anywhere in a
run (nested confirmation calls included) reports a byte size above the
cap. -/
theorem downloader_size_cap_enforcement :
    (∀ (cfg : Cfg) (fileId : Str) (r : RespOk),
      cfg.maxFileSizeBytes < declaredLength r →
      handleFileResponse cfg fileId r
        = (.error (sizePrecheckMsg cfg (declaredLength r)), false)) ∧
    (∀ (cfg : Cfg) (chunks : List Nat) (err : Option String) (pfx rest : List Nat),
      pfx ++ rest = chunks → cfg.maxFileSizeBytes < pfx.sum →
      streamToFile cfg chunks err 0 = (.error (streamSizeMsg cfg), false)) ∧
    (∀ (cfg : Cfg) (fileId url : Str) (mr : Nat) (resps : List Resp) (s : DlSuccess),
      (attemptDownload cfg fileId url mr resps).res = .ok s →
      s.fileSize ≤ cfg.maxFileSizeBytes) := by
  refine ⟨?_, ?_, ?_⟩
  · intro cfg fileId r h
    simp [handleFileResponse, if_pos h]
  · intro cfg chunks err pfx rest hsplit hsum
    exact streamToFile_exceeds cfg chunks err 0 (by omega) ⟨pfx, rest, hsplit, by omega⟩
  · intro cfg fileId url mr resps s h
    exact dlGo_ok_size cfg fileId url mr 1 none resps s h

/-- Witness for `downloader_size_cap_enforcement` at concrete inputs. -/
theorem downloader_size_cap_enforcement_witness :
    handleFileResponse ⟨50⟩ [] ⟨some "application/zip".toList, some 52428801, none, [], none, []⟩
      = (.error (sizePrecheckMsg ⟨50⟩ 52428801), false) ∧
    streamToFile ⟨50⟩ [30000000, 30000000] none 0 = (.error (streamSizeMsg ⟨50⟩), false) ∧
    (123 : Nat) ≤ Cfg.maxFileSizeBytes ⟨50⟩ := by
  refine ⟨?_, ?_, ?_⟩
  · exact downloader_size_cap_enforcement.1 ⟨50⟩ []
      ⟨some "application/zip".toList, some 52428801, none, [], none, []⟩ (by decide)
  · exact downloader_size_cap_enforcement.2.1 ⟨50⟩ [30000000, 30000000] none
      [30000000, 30000000] [] rfl (by decide)
  · exact downloader_size_cap_enforcement.2.2 ⟨50⟩ [] "u".toList 1
      [.ok ⟨none, none, none, [123], none, []⟩]
      ⟨defaultName [], 123, "application/octet-stream".toList⟩
      (by simp [attemptDownload, dlGo.eq_def, handleFileResponse, streamToFile,
        declaredLength, ctIsHtml, respContentType, Cfg.maxFileSizeBytes, defaultName])

/-- Claim C2 (counterexample).  A `FileTooLarge` failure IS followed by
further attempts: with three scripted over-declared responses and
`maxRetries = 3`, the trace shows the attempt-1 file-size failure followed
by two retries (three requests in total), refuting the claim that
`FileTooLarge` is never retried. -/
theorem retry_after_size_error_cex :
    (attemptDownload ⟨50⟩ (List.replicate 30 'a') "u".toList 3
        [.ok ⟨some "application/octet-stream".toList, some 52428801, none, [], none, []⟩,
         .ok ⟨some "application/octet-stream".toList, some 52428801, none, [], none, []⟩,
         .ok ⟨some "application/octet-stream".toList, some 52428801, none, [], none, []⟩]).evs
      = [.req "u".toList, .sleep 1000, .req "u".toList, .sleep 2000, .req "u".toList] ∧
    (attemptDownload ⟨50⟩ (List.replicate 30 'a') "u".toList 3
        [.ok ⟨some "application/octet-stream".toList, some 52428801, none, [], none, []⟩,
         .ok ⟨some "application/octet-stream".toList, some 52428801, none, [], none, []⟩,
         .ok ⟨some "application/octet-stream".toList, some 52428801, none, [], none, []⟩]).res
      = .error (sizePrecheckMsg ⟨50⟩ 52428801) := by
  constructor <;>
    simp [attemptDownload, dlGo.eq_def, handleFileResponse, streamToFile, declaredLength,
      ctIsHtml, containsSub, respContentType, Cfg.maxFileSizeBytes, backoffDelay]

/-- The wrapped message thrown when no confirmation token can be
extracted from the virus-scan page. -/
def tokenFailMsg : String :=
  "Failed to handle virus scan page: Could not extract confirmation token from virus scan page"

/-- Claim C2 (amended).  What the code actually does: only `InvalidFileId`
escapes the retry loop (it is raised by URL generation before any request
is made); every in-loop failure — the file-size pre-check failure and the
missing-confirmation-token failure included — is retried with back-off
while budget remains. -/
theorem retry_selectivity_amended :
    (∀ (cfg : Cfg) (fileId : Str) (mr : Nat) (resps : List Resp),
      isValidFileId fileId = false →
      downloadGoogleDriveFile cfg fileId mr resps
        = ⟨.error "Invalid file ID provided", [], 0⟩) ∧
    (∀ (cfg : Cfg) (fileId url : Str) (mr : Nat) (r : RespOk) (t : List Resp),
      2 ≤ mr → ctIsHtml r = false → cfg.maxFileSizeBytes < declaredLength r →
      dlGo cfg fileId url mr 1 none (.ok r :: t)
        = ⟨(dlGo cfg fileId url mr 2 (some (sizePrecheckMsg cfg (declaredLength r))) t).res,
           .req url :: .sleep 1000 ::
             (dlGo cfg fileId url mr 2 (some (sizePrecheckMsg cfg (declaredLength r))) t).evs,
           (dlGo cfg fileId url mr 2 (some (sizePrecheckMsg cfg (declaredLength r))) t).used + 1⟩) ∧
    (∀ (cfg : Cfg) (fileId url : Str) (mr : Nat) (r : RespOk) (t : List Resp),
      2 ≤ mr → ctIsHtml r = true → extractConfirmationToken r.body = none →
      dlGo cfg fileId url mr 1 none (.ok r :: t)
        = ⟨(dlGo cfg fileId url mr 2 (some tokenFailMsg) t).res,
           .req url :: .sleep 1000 :: (dlGo cfg fileId url mr 2 (some tokenFailMsg) t).evs,
           (dlGo cfg fileId url mr 2 (some tokenFailMsg) t).used + 1⟩) := by
  refine ⟨?_, ?_, ?_⟩
  · intro cfg fileId mr resps h
    simp [downloadGoogleDriveFile, generateDownloadUrl, h]
  · intro cfg fileId url mr r t hmr hct hcl
    rw [dlGo.eq_def]
    simp [if_neg (by omega : ¬ mr < 1), hct, handleFileResponse, if_pos hcl,
      if_pos (by omega : 1 < mr), show backoffDelay 1 = 1000 from rfl]
    omega
  · intro cfg fileId url mr r t hmr hct hx
    rw [dlGo.eq_def]
    simp [if_neg (by omega : ¬ mr < 1), hct, hx,
      if_pos (by omega : 1 < mr), show backoffDelay 1 = 1000 from rfl, tokenFailMsg]
    omega

/-- Witness for `retry_selectivity_amended` at concrete inputs. -/
theorem retry_selectivity_amended_witness :
    downloadGoogleDriveFile ⟨50⟩ "abc".toList 3 [] = ⟨.error "Invalid file ID provided", [], 0⟩ ∧
    dlGo ⟨50⟩ [] "u".toList 2 1 none [.ok ⟨some [], some 52428801, none, [], none, []⟩]
      = ⟨(dlGo ⟨50⟩ [] "u".toList 2 2 (some (sizePrecheckMsg ⟨50⟩ 52428801)) []).res,
         .req "u".toList :: .sleep 1000 ::
           (dlGo ⟨50⟩ [] "u".toList 2 2 (some (sizePrecheckMsg ⟨50⟩ 52428801)) []).evs,
         (dlGo ⟨50⟩ [] "u".toList 2 2 (some (sizePrecheckMsg ⟨50⟩ 52428801)) []).used + 1⟩ ∧
    dlGo ⟨50⟩ [] "u".toList 2 1 none [.ok ⟨some "text/html".toList, none, none, [], none, []⟩]
      = ⟨(dlGo ⟨50⟩ [] "u".toList 2 2 (some tokenFailMsg) []).res,
         .req "u".toList :: .sleep 1000 :: (dlGo ⟨50⟩ [] "u".toList 2 2 (some tokenFailMsg) []).evs,
         (dlGo ⟨50⟩ [] "u".toList 2 2 (some tokenFailMsg) []).used + 1⟩ := by
  refine ⟨?_, ?_, ?_⟩
  · exact retry_selectivity_amended.1 ⟨50⟩ "abc".toList 3 [] (by decide)
  · exact retry_selectivity_amended.2.1 ⟨50⟩ [] "u".toList 2
      ⟨some [], some 52428801, none, [], none, []⟩ [] (by omega) (by decide) (by decide)
  · exact retry_selectivity_amended.2.2 ⟨50⟩ [] "u".toList 2
      ⟨some "text/html".toList, none, none, [], none, []⟩ [] (by omega) (by decide) (by decide)

/-- Claim C4 (counterexample).  The total number of confirmation-URL
attempts in one run exceeds one: when each outer attempt meets the
virus-scan page and the single confirmation attempt fails transiently,
the outer loop re-extracts and re-attempts — three confirmation-URL
requests with `maxRetries = 3`. -/
theorem confirmation_attempts_exceed_one_cex :
    ((attemptDownload ⟨50⟩ (List.replicate 30 'a') "u".toList 3
        [.ok ⟨some "text/html".toList, none, none, [], none, "confirm=t0ken".toList⟩,
         .netErr "timeout",
         .ok ⟨some "text/html".toList, none, none, [], none, "confirm=t0ken".toList⟩,
         .netErr "timeout",
         .ok ⟨some "text/html".toList, none, none, [], none, "confirm=t0ken".toList⟩,
         .netErr "timeout"]).evs.filter isConfirmReq).length = 3 := by
  have hct : ctIsHtml ⟨some "text/html".toList, none, none, [], none,
      "confirm=t0ken".toList⟩ = true := by decide
  have hx : extractConfirmationToken "confirm=t0ken".toList = some "t0ken".toList := by
    decide
  have hg : generateConfirmationUrl (List.replicate 30 'a') "t0ken".toList
      = .ok ("https://drive.google.com/uc?export=download&confirm=".toList ++
        "t0ken".toList ++ "&id=".toList ++ List.replicate 30 'a') := rfl
  simp only [attemptDownload]
  simp [dlGo.eq_def, hct, hx, hg, backoffDelay]
  decide

/-- Claim C4 (amended).  Per virus-page encounter, the confirmation download
is attempted exactly once with no back-off: the nested call runs with a
retry budget of one, so it makes exactly one request against the
confirmation URL and returns that attempt's outcome directly — a network
failure is not re-attempted by the nested call and no sleep occurs (the
outer loop may nevertheless re-encounter the page on its later attempts,
so a whole run can contain one confirmation attempt per encounter). -/
theorem confirmation_single_attempt_amended :
    (∀ (cfg : Cfg) (fileId cu : Str) (e : String) (t : List Resp),
      dlGo cfg fileId cu 1 1 none (.netErr e :: t) = ⟨.error e, [.req cu], 1⟩) ∧
    (∀ (cfg : Cfg) (fileId cu : Str) (r : RespOk) (t : List Resp),
      ctIsHtml r = false →
      dlGo cfg fileId cu 1 1 none (.ok r :: t)
        = ⟨(handleFileResponse cfg fileId r).1, [.req cu], 1⟩) := by
  constructor
  · intro cfg fileId cu e t
    rw [dlGo.eq_def]
    simp
  · intro cfg fileId cu r t hct
    rw [dlGo.eq_def]
    rcases hf : handleFileResponse cfg fileId r with ⟨res, ex⟩
    cases res with
    | ok s => simp [hct, hf]
    | error e => simp [hct, hf]

/-- Witness for `confirmation_single_attempt_amended`. -/
theorem confirmation_single_attempt_amended_witness :
    dlGo ⟨50⟩ [] "c".toList 1 1 none [.netErr "x"] = ⟨.error "x", [.req "c".toList], 1⟩ ∧
    dlGo ⟨50⟩ [] "c".toList 1 1 none [.ok ⟨none, none, none, [7], none, []⟩]
      = ⟨(handleFileResponse ⟨50⟩ [] ⟨none, none, none, [7], none, []⟩).1,
         [.req "c".toList], 1⟩ := by
  constructor
  · exact confirmation_single_attempt_amended.1 ⟨50⟩ [] "c".toList "x" []
  · exact confirmation_single_attempt_amended.2 ⟨50⟩ [] "c".toList
      ⟨none, none, none, [7], none, []⟩ [] (by decide)

/-!
 ## Lemmas about the matcher

`occursNowhere`-style reasoning: a pattern that starts with a mandatory
literal can only match where that literal occurs, and a literal cannot
occur anywhere in `L ++ tok ++ R` when a decidable side condition on the
concrete parts holds — this settles the pattern-ordering questions of the
token extractor for an arbitrary token.
-/

theorem isPrefixOf_append_self (w : Str) (t : Str) : w.isPrefixOf (w ++ t) = true := by
  induction w with
  | nil => simp [List.isPrefixOf]
  | cons c w' ih => simp [List.isPrefixOf, ih]

theorem pref_exists (w : Str) : ∀ (s : Str), w.isPrefixOf s = true → ∃ t, s = w ++ t := by
  induction w with
  | nil => exact fun s _ => ⟨s, rfl⟩
  | cons c w' ih =>
    intro s h
    cases s with
    | nil => simp [List.isPrefixOf] at h
    | cons a s' =>
      simp only [List.isPrefixOf, Bool.and_eq_true, beq_iff_eq] at h
      obtain ⟨t, ht⟩ := ih s' h.2
      exact ⟨t, by simp [h.1, ht]⟩

theorem pref_of_eq_append (w s t : Str) (h : s = w ++ t) : w.isPrefixOf s = true := by
  subst h; exact isPrefixOf_append_self w t

theorem pref_append_cases (w : Str) :
    ∀ (A B : Str), w.isPrefixOf (A ++ B) = true →
      (w.length ≤ A.length ∧ w.isPrefixOf A = true) ∨
      (A.length ≤ w.length ∧ w.take A.length = A ∧ (w.drop A.length).isPrefixOf B = true) := by
  intro A
  induction A generalizing w with
  | nil =>
    intro B h
    exact Or.inr ⟨by simp, rfl, h⟩
  | cons a A' ih =>
    intro B h
    cases w with
    | nil => exact Or.inl ⟨by simp, by simp [List.isPrefixOf]⟩
    | cons c w' =>
      simp only [List.cons_append, List.isPrefixOf, Bool.and_eq_true, beq_iff_eq] at h
      rcases ih w' B h.2 with ⟨h1, h2⟩ | ⟨h1, h2, h3⟩
      · refine Or.inl ⟨?_, by simp [List.isPrefixOf, h.1, h2]⟩
        simp only [List.length_cons]
        omega
      · refine Or.inr ⟨?_, ?_, ?_⟩
        · simp only [List.length_cons]
          omega
        · simp [h.1, h2]
        · simpa using h3

theorem all_of_pref (p : Char → Bool) (u v : Str) (hu : u.isPrefixOf v = true)
    (hv : v.all p = true) : u.all p = true := by
  obtain ⟨t, rfl⟩ := pref_exists u v hu
  simp only [List.all_append, Bool.and_eq_true] at hv
  exact hv.1

theorem all_drop_of_all (p : Char → Bool) (v : Str) (n : Nat) (h : v.all p = true) :
    (v.drop n).all p = true := by
  conv at h => rw [← List.take_append_drop n v]
  simp only [List.all_append, Bool.and_eq_true] at h
  exact h.2

theorem takeWhile_append_all (p : Char → Bool) (u : Str) :
    ∀ (v : Str), u.all p = true → (u ++ v).takeWhile p = u ++ v.takeWhile p := by
  induction u with
  | nil => intro v _; rfl
  | cons c u' ih =>
    intro v h
    simp only [List.all_cons, Bool.and_eq_true] at h
    simp [List.takeWhile_cons_of_pos h.1, ih v h.2]

theorem takeWhile_all_self (p : Char → Bool) (u : Str) (h : u.all p = true) :
    u.takeWhile p = u := by
  have := takeWhile_append_all p u [] h
  simpa using this

theorem all_take_le_takeWhile (p : Char → Bool) :
    ∀ (s : Str) (i : Nat), i ≤ (s.takeWhile p).length → (s.take i).all p = true := by
  intro s
  induction s with
  | nil => intro i h; simp
  | cons c t ih =>
    intro i h
    by_cases hpc : p c = true
    · rw [List.takeWhile_cons_of_pos hpc] at h
      cases i with
      | zero => simp
      | succ m =>
        simp only [List.length_cons, Nat.succ_le_succ_iff] at h
        simp [hpc, ih m h]
    · rw [List.takeWhile_cons_of_neg (by simpa using hpc)] at h
      simp only [List.length_nil, Nat.le_zero] at h
      subst h
      simp

theorem drop_append_le (n : Nat) :
    ∀ (L M : Str), n ≤ L.length → (L ++ M).drop n = L.drop n ++ M := by
  induction n with
  | zero => intro L M _; rfl
  | succ m ih =>
    intro L M h
    cases L with
    | nil => simp at h
    | cons a L' =>
      simp only [List.length_cons, Nat.succ_le_succ_iff] at h
      simpa using ih L' M h

theorem drop_append_all (L : Str) (M : Str) (j : Nat) :
    (L ++ M).drop (L.length + j) = M.drop j := by
  induction L with
  | nil => simp
  | cons a L' ih =>
    simp only [List.cons_append, List.length_cons, Nat.succ_add, List.drop_succ_cons]
    exact ih

theorem backOpt_sound (s : Str) (cap : Option Str) (k : Str → Option Str → Option Str)
    (v : Str) : ∀ (n : Nat), backOpt s cap k n = some v →
      ∃ i, i ≤ n ∧ k (s.drop i) cap = some v := by
  intro n
  induction n with
  | zero =>
    intro h
    exact ⟨0, Nat.le_refl 0, by simpa using h⟩
  | succ m ih =>
    intro h
    rw [backOpt] at h
    cases h1 : k (s.drop (m + 1)) cap with
    | some w => rw [h1] at h; simp at h; exact ⟨m + 1, Nat.le_refl _, by rw [h1, h]⟩
    | none =>
      rw [h1] at h
      simp only [Option.none_orElse] at h
      obtain ⟨i, hi, hk⟩ := ih h
      exact ⟨i, by omega, hk⟩

theorem backPos_sound (s : Str) (cap : Option Str) (k : Str → Option Str → Option Str)
    (v : Str) : ∀ (n : Nat), backPos s cap k n = some v →
      ∃ i, 1 ≤ i ∧ i ≤ n ∧ k (s.drop i) cap = some v := by
  intro n
  induction n with
  | zero => intro h; simp [backPos] at h
  | succ m ih =>
    intro h
    rw [backPos] at h
    cases h1 : k (s.drop (m + 1)) cap with
    | some w => rw [h1] at h; simp at h; exact ⟨m + 1, by omega, Nat.le_refl _, by rw [h1, h]⟩
    | none =>
      rw [h1] at h
      simp only [Option.none_orElse] at h
      obtain ⟨i, hi1, hi, hk⟩ := ih h
      exact ⟨i, hi1, by omega, hk⟩

theorem backGrp_sound (s : Str) (k : Str → Option Str → Option Str)
    (v : Str) : ∀ (n : Nat), backGrp s k n = some v →
      ∃ i, 1 ≤ i ∧ i ≤ n ∧ k (s.drop i) (some (s.take i)) = some v := by
  intro n
  induction n with
  | zero => intro h; simp [backGrp] at h
  | succ m ih =>
    intro h
    rw [backGrp] at h
    cases h1 : k (s.drop (m + 1)) (some (s.take (m + 1))) with
    | some w => rw [h1] at h; simp at h; exact ⟨m + 1, by omega, Nat.le_refl _, by rw [h1, h]⟩
    | none =>
      rw [h1] at h
      simp only [Option.none_orElse] at h
      obtain ⟨i, hi1, hi, hk⟩ := ih h
      exact ⟨i, hi1, by omega, hk⟩

theorem len_takeWhile_le (p : Char → Bool) (s : Str) :
    (s.takeWhile p).length ≤ s.length := by
  induction s with
  | nil => simp
  | cons c t ih =>
    by_cases hpc : p c = true
    · rw [List.takeWhile_cons_of_pos hpc]
      simp only [List.length_cons]
      omega
    · rw [List.takeWhile_cons_of_neg (by simpa using hpc)]
      simp

/-- Declarative matching relation for the regex AST (captures ignored):
which strings a pattern can consume. -/
inductive Matches : RE → Str → Prop where
  | eps : Matches .eps []
  | chP {p : Char → Bool} {c : Char} : p c = true → Matches (.chP p) [c]
  | lit {w : Str} : Matches (.lit w) w
  | cat {a b : RE} {u v : Str} : Matches a u → Matches b v → Matches (.cat a b) (u ++ v)
  | altL {a b : RE} {u : Str} : Matches a u → Matches (.alt a b) u
  | altR {a b : RE} {u : Str} : Matches b u → Matches (.alt a b) u
  | optSome {a : RE} {u : Str} : Matches a u → Matches (.opt a) u
  | optNone {a : RE} : Matches (.opt a) []
  | star {p : Char → Bool} {u : Str} : u.all p = true → Matches (.star p) u
  | plus {p : Char → Bool} {u : Str} : u ≠ [] → u.all p = true → Matches (.plus p) u
  | grp {p : Char → Bool} {u : Str} : u ≠ [] → u.all p = true → Matches (.grp p) u

/-- Soundness of the CPS matcher: a successful run consumes a prefix the
pattern matches and hands the rest to the continuation. -/
theorem mrun_sound (r : RE) :
    ∀ (s : Str) (cap : Option Str) (k : Str → Option Str → Option Str) (v : Str),
      mrun r s cap k = some v →
      ∃ u t cap2, s = u ++ t ∧ Matches r u ∧ k t cap2 = some v := by
  induction r with
  | eps =>
    intro s cap k v h
    exact ⟨[], s, cap, rfl, Matches.eps, by simpa [mrun] using h⟩
  | chP p =>
    intro s cap k v h
    cases s with
    | nil => simp [mrun] at h
    | cons c t =>
      rw [mrun] at h
      by_cases hpc : p c = true
      · rw [if_pos hpc] at h
        exact ⟨[c], t, cap, rfl, Matches.chP hpc, h⟩
      · rw [if_neg hpc] at h; exact absurd h (by simp)
  | lit w =>
    intro s cap k v h
    rw [mrun] at h
    by_cases hw : w.isPrefixOf s = true
    · rw [if_pos hw] at h
      obtain ⟨t, rfl⟩ := pref_exists w s hw
      refine ⟨w, t, cap, rfl, Matches.lit, ?_⟩
      rwa [List.drop_left] at h
    · rw [if_neg hw] at h; exact absurd h (by simp)
  | cat a b iha ihb =>
    intro s cap k v h
    rw [mrun] at h
    obtain ⟨u1, t1, cap1, rfl, hm1, hk1⟩ := iha s cap _ v h
    obtain ⟨u2, t2, cap2, rfl, hm2, hk2⟩ := ihb t1 cap1 k v hk1
    exact ⟨u1 ++ u2, t2, cap2, by simp, Matches.cat hm1 hm2, hk2⟩
  | alt a b iha ihb =>
    intro s cap k v h
    rw [mrun] at h
    cases h1 : mrun a s cap k with
    | some w =>
      rw [h1] at h; simp at h; subst h
      obtain ⟨u, t, cap2, rfl, hm, hk⟩ := iha s cap k w h1
      exact ⟨u, t, cap2, rfl, Matches.altL hm, hk⟩
    | none =>
      rw [h1] at h
      simp only [Option.none_orElse] at h
      obtain ⟨u, t, cap2, rfl, hm, hk⟩ := ihb s cap k v h
      exact ⟨u, t, cap2, rfl, Matches.altR hm, hk⟩
  | opt a iha =>
    intro s cap k v h
    rw [mrun] at h
    cases h1 : mrun a s cap k with
    | some w =>
      rw [h1] at h; simp at h; subst h
      obtain ⟨u, t, cap2, rfl, hm, hk⟩ := iha s cap k w h1
      exact ⟨u, t, cap2, rfl, Matches.optSome hm, hk⟩
    | none =>
      rw [h1] at h
      simp only [Option.none_orElse] at h
      exact ⟨[], s, cap, rfl, Matches.optNone, h⟩
  | star p =>
    intro s cap k v h
    rw [mrun] at h
    obtain ⟨i, hi, hk⟩ := backOpt_sound s cap k v _ h
    refine ⟨s.take i, s.drop i, cap, (List.take_append_drop i s).symm, ?_, hk⟩
    exact Matches.star (all_take_le_takeWhile p s i hi)
  | plus p =>
    intro s cap k v h
    rw [mrun] at h
    obtain ⟨i, hi1, hi, hk⟩ := backPos_sound s cap k v _ h
    refine ⟨s.take i, s.drop i, cap, (List.take_append_drop i s).symm, ?_, hk⟩
    refine Matches.plus ?_ (all_take_le_takeWhile p s i hi)
    have hlen := len_takeWhile_le p s
    cases s with
    | nil => simp at hi; omega
    | cons a t =>
      cases i with
      | zero => omega
      | succ m => simp
  | grp p =>
    intro s cap k v h
    rw [mrun] at h
    obtain ⟨i, hi1, hi, hk⟩ := backGrp_sound s k v _ h
    refine ⟨s.take i, s.drop i, some (s.take i), (List.take_append_drop i s).symm, ?_, hk⟩
    refine Matches.grp ?_ (all_take_le_takeWhile p s i hi)
    have hlen := len_takeWhile_le p s
    cases s with
    | nil => simp at hi; omega
    | cons a t =>
      cases i with
      | zero => omega
      | succ m => simp

/-- Soundness of the unanchored search: a returned capture comes from a
match at some start position. -/
theorem searchCap_sound (r : RE) :
    ∀ (s : Str) (v : Str), searchCap r s = some v →
      ∃ j, mrun r (s.drop j) none (fun _ cap => cap) = some v := by
  intro s
  induction s with
  | nil =>
    intro v h
    exact ⟨0, by simpa [searchCap] using h⟩
  | cons c t ih =>
    intro v h
    rw [searchCap] at h
    cases h1 : mrun r (c :: t) none fun _ cap => cap with
    | some w => rw [h1] at h; simp at h; subst h; exact ⟨0, h1⟩
    | none =>
      rw [h1] at h
      obtain ⟨j, hj⟩ := ih v h
      exact ⟨j + 1, by simpa using hj⟩

theorem matches_cat_lit (w : Str) (r2 : RE) (u : Str)
    (h : Matches (.cat (.lit w) r2) u) : ∃ u2, u = w ++ u2 := by
  cases h with
  | cat h1 h2 => cases h1; exact ⟨_, rfl⟩

/-- A pattern that begins with a mandatory literal can only match where
the literal occurs. -/
theorem searchCap_some_occurs (w : Str) (r2 : RE) (s : Str) (v : Str)
    (h : searchCap (.cat (.lit w) r2) s = some v) :
    ∃ j, w.isPrefixOf (s.drop j) = true := by
  obtain ⟨j, hj⟩ := searchCap_sound _ s v h
  obtain ⟨u, t, cap2, hu, hm, hk⟩ := mrun_sound _ (s.drop j) none _ v hj
  obtain ⟨u2, rfl⟩ := matches_cat_lit w r2 u hm
  rw [List.append_assoc] at hu
  exact ⟨j, pref_of_eq_append w _ _ hu⟩

/-- Contrapositive form used to discharge the no-match side conditions. -/
theorem searchCap_eq_none (w : Str) (r2 : RE) (s : Str)
    (h : ∀ j, ¬ (w.isPrefixOf (s.drop j) = true)) :
    searchCap (.cat (.lit w) r2) s = none := by
  cases hv : searchCap (.cat (.lit w) r2) s with
  | none => rfl
  | some v =>
    obtain ⟨j, hj⟩ := searchCap_some_occurs w r2 s v hv
    exact absurd hj (h j)

/-- No split of `w2` into an all-`p` part followed by a prefix of `R`
exists; then `w2` is a prefix of no `M ++ R` with `M` all-`p`. -/
def tailNoFit (w2 R : Str) (p : Char → Bool) : Bool :=
  (List.range (w2.length + 1)).all fun m =>
    !((w2.take m).all p && (w2.drop m).isPrefixOf R)

/-- Decidable certificate that `w` occurs nowhere in `L ++ tok ++ R`, for
any `tok` over the alphabet `p`. -/
def noOccurCond (w L R : Str) (p : Char → Bool) : Bool :=
  ((List.range L.length).all fun i =>
    if L.length - i < w.length then
      !(w.take (L.length - i) == L.drop i) || tailNoFit (w.drop (L.length - i)) R p
    else !(w.isPrefixOf (L.drop i))) &&
  tailNoFit w R p &&
  ((List.range (R.length + 1)).all fun j => !(w.isPrefixOf (R.drop j)))

theorem tailNoFit_contra (w2 R : Str) (p : Char → Bool) (M : Str)
    (hM : M.all p = true) (hc : tailNoFit w2 R p = true)
    (hpre : w2.isPrefixOf (M ++ R) = true) : False := by
  have hall : ∀ m, m < w2.length + 1 →
      ((w2.take m).all p && (w2.drop m).isPrefixOf R) = false := by
    intro m hm
    have hx := hc
    rw [tailNoFit, List.all_eq_true] at hx
    have h5 := hx _ (List.mem_range.mpr hm)
    simp only [Bool.not_eq_true'] at h5
    exact h5
  rcases pref_append_cases w2 M R hpre with ⟨h1, h2⟩ | ⟨h1, h2, h3⟩
  · have hp := all_of_pref p w2 M h2 hM
    have hx := hall w2.length (by omega)
    rw [List.take_length, List.drop_length, hp] at hx
    simp [List.isPrefixOf] at hx
  · have hx := hall M.length (by omega)
    rw [h2, h3, hM] at hx
    simp at hx

theorem no_occur_master (w L R : Str) (p : Char → Bool) (tok : Str)
    (htok : tok.all p = true) (hc : noOccurCond w L R p = true) (j : Nat) :
    ¬ (w.isPrefixOf ((L ++ (tok ++ R)).drop j) = true) := by
  intro hpre
  have hcparts := hc
  rw [noOccurCond] at hcparts
  simp only [Bool.and_eq_true] at hcparts
  obtain ⟨⟨hcA, hc2⟩, hcC⟩ := hcparts
  have hc1 : ∀ i, i < L.length →
      (if L.length - i < w.length then
        !(w.take (L.length - i) == L.drop i) || tailNoFit (w.drop (L.length - i)) R p
      else !(w.isPrefixOf (L.drop i))) = true := by
    intro i hi
    rw [List.all_eq_true] at hcA
    exact hcA _ (List.mem_range.mpr hi)
  have hc3 : ∀ i, i < R.length + 1 → w.isPrefixOf (R.drop i) = false := by
    intro i hi
    rw [List.all_eq_true] at hcC
    have h5 := hcC _ (List.mem_range.mpr hi)
    simp only [Bool.not_eq_true'] at h5
    exact h5
  have hwne : w ≠ [] := by
    intro hw
    subst hw
    have := hc3 0 (by omega)
    simp [List.isPrefixOf] at this
  by_cases hj1 : j < L.length
  · have hdrop : (L ++ (tok ++ R)).drop j = L.drop j ++ (tok ++ R) :=
      drop_append_le j L (tok ++ R) (by omega)
    rw [hdrop] at hpre
    have hlen : (L.drop j).length = L.length - j := by simp
    have hcnd := hc1 j hj1
    by_cases ho : L.length - j < w.length
    · rw [if_pos ho] at hcnd
      rcases pref_append_cases w (L.drop j) (tok ++ R) hpre with ⟨h1, h2⟩ | ⟨h1, h2, h3⟩
      · rw [hlen] at h1; omega
      · rw [hlen] at h2 h3
        have heq : (w.take (L.length - j) == L.drop j) = true := by
          rw [beq_iff_eq]; exact h2
        rw [heq] at hcnd
        simp only [Bool.not_true, Bool.false_or] at hcnd
        exact tailNoFit_contra (w.drop (L.length - j)) R p tok htok hcnd h3
    · rw [if_neg ho] at hcnd
      simp only [Bool.not_eq_true'] at hcnd
      rcases pref_append_cases w (L.drop j) (tok ++ R) hpre with ⟨h1, h2⟩ | ⟨h1, h2, h3⟩
      · rw [h2] at hcnd; simp at hcnd
      · rw [hlen] at h1 h2
        have hoe : L.length - j = w.length := by omega
        rw [hoe, List.take_length] at h2
        rw [← h2] at hcnd
        have hself : w.isPrefixOf w = true := by
          have hx := isPrefixOf_append_self w []
          rwa [List.append_nil] at hx
        rw [hself] at hcnd
        simp at hcnd
  · by_cases hj2 : j - L.length < tok.length
    · have hj' : j = L.length + (j - L.length) := by omega
      rw [hj', drop_append_all] at hpre
      have hdrop2 : (tok ++ R).drop (j - L.length) = tok.drop (j - L.length) ++ R :=
        drop_append_le _ tok R (by omega)
      rw [hdrop2] at hpre
      exact tailNoFit_contra w R p (tok.drop (j - L.length))
        (all_drop_of_all p tok _ htok) hc2 hpre
    · have hj' : j = L.length + (j - L.length) := by omega
      rw [hj', drop_append_all] at hpre
      have hj'' : j - L.length = tok.length + (j - L.length - tok.length) := by omega
      rw [hj'', drop_append_all] at hpre
      by_cases hi : j - L.length - tok.length < R.length + 1
      · rw [hc3 _ hi] at hpre
        simp at hpre
      · rw [List.drop_eq_nil_of_le (by omega)] at hpre
        cases w with
        | nil => exact hwne rfl
        | cons c w' => simp [List.isPrefixOf] at hpre

theorem all_notQuote_of_idChar (tok : Str) (h : tok.all isIdChar = true) :
    tok.all (fun c => !(c == '"')) = true := by
  rw [List.all_eq_true] at h ⊢
  intro c hc
  have hid := h c hc
  by_cases hq : c = '"'
  · subst hq
    exact absurd hid (by decide)
  · simp [hq]

theorem backGrp_succ (s : Str) (k : Str → Option Str → Option Str) (m : Nat) (v : Str)
    (h : k (s.drop (m + 1)) (some (s.take (m + 1))) = some v) :
    backGrp s k (m + 1) = some v := by
  rw [backGrp, h]
  rfl

theorem backPos_succ (s : Str) (cap : Option Str) (k : Str → Option Str → Option Str)
    (m : Nat) (v : Str) (h : k (s.drop (m + 1)) cap = some v) :
    backPos s cap k (m + 1) = some v := by
  rw [backPos, h]
  rfl

/-- `confirm=<tok>` against the first pattern: the greedy group captures
exactly the token. -/
theorem cpQuery_canonical (c0 : Char) (tok' : Str)
    (hall : (c0 :: tok').all isIdChar = true) :
    mrun cpQuery ("confirm=".toList ++ (c0 :: tok')) none (fun _ cap => cap)
      = some (c0 :: tok') := by
  simp only [cpQuery, mrun]
  rw [if_pos (isPrefixOf_append_self _ _), List.drop_left]
  rw [takeWhile_all_self isIdChar _ hall]
  simp only [List.length_cons]
  exact backGrp_succ _ _ _ _ (by simp)

/-- `"confirm":"<tok>"` against the JSON pattern. -/
theorem cpJson_canonical (c0 : Char) (tok' : Str)
    (hall : (c0 :: tok').all isIdChar = true) :
    mrun cpJson ("\"confirm\":\"".toList ++ ((c0 :: tok') ++ ['"'])) none
      (fun _ cap => cap) = some (c0 :: tok') := by
  have hnq := all_notQuote_of_idChar _ hall
  have h1 : ((c0 :: tok') ++ ['"']).takeWhile (fun c => !(c == '"')) = c0 :: tok' := by
    rw [takeWhile_append_all _ _ _ hnq, List.takeWhile_cons_of_neg (by decide)]
    simp
  have hd : ((c0 :: tok') ++ ['"']).drop (tok'.length + 1) = ['"'] := by
    simp
  have ht : ((c0 :: tok') ++ ['"']).take (tok'.length + 1) = c0 :: tok' := by
    simp
  simp only [cpJson, mrun]
  rw [if_pos (isPrefixOf_append_self _ _), List.drop_left, h1]
  simp only [List.length_cons]
  apply backGrp_succ
  rw [hd, ht]
  simp [List.isPrefixOf]

/-- `name="confirm" value="<tok>"` against the hidden-field pattern. -/
theorem cpHidden_canonical (c0 : Char) (tok' : Str)
    (hall : (c0 :: tok').all isIdChar = true) :
    mrun cpHidden
      ("name=\"confirm\"".toList ++
        (' ' :: ("value=\"".toList ++ ((c0 :: tok') ++ ['"'])))) none
      (fun _ cap => cap) = some (c0 :: tok') := by
  have hnq := all_notQuote_of_idChar _ hall
  have h1 : ((c0 :: tok') ++ ['"']).takeWhile (fun c => !(c == '"')) = c0 :: tok' := by
    rw [takeWhile_append_all _ _ _ hnq, List.takeWhile_cons_of_neg (by decide)]
    simp
  have hd : ((c0 :: tok') ++ ['"']).drop (tok'.length + 1) = ['"'] := by
    simp
  have ht : ((c0 :: tok') ++ ['"']).take (tok'.length + 1) = c0 :: tok' := by
    simp
  have hXshape : "value=\"".toList ++ ((c0 :: tok') ++ ['"'])
      = 'v' :: ("alue=\"".toList ++ ((c0 :: tok') ++ ['"'])) := by
    rw [show "value=\"".toList = 'v' :: "alue=\"".toList from by decide]
    rfl
  simp only [cpHidden, mrun]
  rw [if_pos (isPrefixOf_append_self _ _), List.drop_left]
  rw [hXshape, List.takeWhile_cons_of_pos (by decide : jsWs ' ' = true),
    List.takeWhile_cons_of_neg (show ¬ jsWs 'v' = true from by decide)]
  simp only [List.length_cons, List.length_nil]
  apply backPos_succ
  simp only [List.drop_succ_cons, List.drop_zero]
  rw [← hXshape]
  rw [if_pos (isPrefixOf_append_self _ _), List.drop_left, h1]
  simp only [List.length_cons]
  apply backGrp_succ
  rw [hd, ht]
  simp [List.isPrefixOf]

theorem searchCap_cpQuery (c0 : Char) (tok' : Str)
    (hall : (c0 :: tok').all isIdChar = true) :
    searchCap cpQuery ("confirm=".toList ++ (c0 :: tok')) = some (c0 :: tok') := by
  have hshape : "confirm=".toList ++ (c0 :: tok')
      = 'c' :: ("onfirm=".toList ++ (c0 :: tok')) := by
    rw [show "confirm=".toList = 'c' :: "onfirm=".toList from by decide]
    rfl
  rw [hshape, searchCap, ← hshape, cpQuery_canonical c0 tok' hall]

theorem searchCap_cpHidden (c0 : Char) (tok' : Str)
    (hall : (c0 :: tok').all isIdChar = true) :
    searchCap cpHidden ("name=\"confirm\" value=\"".toList ++ ((c0 :: tok') ++ ['"']))
      = some (c0 :: tok') := by
  have hshape : "name=\"confirm\" value=\"".toList ++ ((c0 :: tok') ++ ['"'])
      = "name=\"confirm\"".toList ++ (' ' :: ("value=\"".toList ++ ((c0 :: tok') ++ ['"']))) := by
    rw [show "name=\"confirm\" value=\"".toList
        = "name=\"confirm\"".toList ++ (' ' :: "value=\"".toList) from by decide]
    rw [List.append_assoc]
    rfl
  have hcons : "name=\"confirm\" value=\"".toList ++ ((c0 :: tok') ++ ['"'])
      = 'n' :: ("ame=\"confirm\" value=\"".toList ++ ((c0 :: tok') ++ ['"'])) := by
    rw [show "name=\"confirm\" value=\"".toList
        = 'n' :: "ame=\"confirm\" value=\"".toList from by decide]
    rfl
  rw [hcons, searchCap, ← hcons, hshape, cpHidden_canonical c0 tok' hall]

theorem searchCap_cpJson (c0 : Char) (tok' : Str)
    (hall : (c0 :: tok').all isIdChar = true) :
    searchCap cpJson ("\"confirm\":\"".toList ++ ((c0 :: tok') ++ ['"']))
      = some (c0 :: tok') := by
  have hcons : "\"confirm\":\"".toList ++ ((c0 :: tok') ++ ['"'])
      = '"' :: ("confirm\":\"".toList ++ ((c0 :: tok') ++ ['"'])) := by
    rw [show "\"confirm\":\"".toList = '"' :: "confirm\":\"".toList from by decide]
    rfl
  rw [hcons, searchCap, ← hcons, cpJson_canonical c0 tok' hall]

set_option maxRecDepth 8000 in
/-- Claim C7 (confirmed).  For every non-empty token over the id alphabet,
the four canonical embeddings — `confirm=<tok>`, the hidden form field,
`&confirm=<tok>`, and the JSON field — all make `extractConfirmationToken`
return exactly that token, whichever pattern the body uses. -/
theorem token_extraction_agreement (tok : Str) (hne : tok ≠ [])
    (hall : tok.all isIdChar = true) :
    extractConfirmationToken ("confirm=".toList ++ tok) = some tok ∧
    extractConfirmationToken
      ("name=\"confirm\" value=\"".toList ++ tok ++ "\"".toList) = some tok ∧
    extractConfirmationToken ("&confirm=".toList ++ tok) = some tok ∧
    extractConfirmationToken ("\"confirm\":\"".toList ++ tok ++ "\"".toList) = some tok := by
  obtain ⟨c0, tok', rfl⟩ := List.exists_cons_of_ne_nil hne
  have hq : "\"".toList = ['"'] := by decide
  refine ⟨?_, ?_, ?_, ?_⟩
  · simp only [extractConfirmationToken, confirmPatterns, firstSome]
    rw [searchCap_cpQuery c0 tok' hall]
  · rw [List.append_assoc, hq]
    have hfail1 : searchCap cpQuery
        ("name=\"confirm\" value=\"".toList ++ ((c0 :: tok') ++ ['"'])) = none := by
      simp only [cpQuery]
      exact searchCap_eq_none _ _ _ (fun j =>
        no_occur_master "confirm=".toList "name=\"confirm\" value=\"".toList ['"']
          isIdChar (c0 :: tok') hall (by decide) j)
    simp only [extractConfirmationToken, confirmPatterns, firstSome]
    rw [hfail1, searchCap_cpHidden c0 tok' hall]
  · have hsh : "&confirm=".toList ++ (c0 :: tok')
        = '&' :: ("confirm=".toList ++ (c0 :: tok')) := by
      rw [show "&confirm=".toList = '&' :: "confirm=".toList from by decide]
      rfl
    have h0 : mrun cpQuery ('&' :: ("confirm=".toList ++ (c0 :: tok'))) none
        (fun _ cap => cap) = none := by
      have hp : ("confirm=".toList.isPrefixOf
          ('&' :: ("confirm=".toList ++ (c0 :: tok')))) = false := by
        rw [show "confirm=".toList = 'c' :: "onfirm=".toList from by decide]
        simp [List.isPrefixOf]
      simp only [cpQuery, mrun, hp]
      simp
    simp only [extractConfirmationToken, confirmPatterns, firstSome]
    rw [hsh, searchCap, h0, ← hsh]
    rw [searchCap_cpQuery c0 tok' hall]
  · rw [List.append_assoc, hq]
    have hfail1 : searchCap cpQuery
        ("\"confirm\":\"".toList ++ ((c0 :: tok') ++ ['"'])) = none := by
      simp only [cpQuery]
      exact searchCap_eq_none _ _ _ (fun j =>
        no_occur_master "confirm=".toList "\"confirm\":\"".toList ['"']
          isIdChar (c0 :: tok') hall (by decide) j)
    have hfail2 : searchCap cpHidden
        ("\"confirm\":\"".toList ++ ((c0 :: tok') ++ ['"'])) = none := by
      simp only [cpHidden]
      exact searchCap_eq_none _ _ _ (fun j =>
        no_occur_master "name=\"confirm\"".toList "\"confirm\":\"".toList ['"']
          isIdChar (c0 :: tok') hall (by decide) j)
    have hfail3 : searchCap cpAmp
        ("\"confirm\":\"".toList ++ ((c0 :: tok') ++ ['"'])) = none := by
      simp only [cpAmp]
      exact searchCap_eq_none _ _ _ (fun j =>
        no_occur_master "&confirm=".toList "\"confirm\":\"".toList ['"']
          isIdChar (c0 :: tok') hall (by decide) j)
    simp only [extractConfirmationToken, confirmPatterns, firstSome]
    rw [hfail1, hfail2, hfail3, searchCap_cpJson c0 tok' hall]

/-- Witness for `token_extraction_agreement` at a concrete token. -/
theorem token_extraction_agreement_witness :
    extractConfirmationToken ("confirm=".toList ++ "t0ken-XYZ".toList)
      = some "t0ken-XYZ".toList ∧
    extractConfirmationToken
      ("name=\"confirm\" value=\"".toList ++ "t0ken-XYZ".toList ++ "\"".toList)
      = some "t0ken-XYZ".toList ∧
    extractConfirmationToken ("&confirm=".toList ++ "t0ken-XYZ".toList)
      = some "t0ken-XYZ".toList ∧
    extractConfirmationToken ("\"confirm\":\"".toList ++ "t0ken-XYZ".toList ++ "\"".toList)
      = some "t0ken-XYZ".toList :=
  token_extraction_agreement "t0ken-XYZ".toList (by decide) (by decide)
